import Mathlib

/-!
Verification development for the runtime core of the rusty-lox tree-walking
interpreter: resolver, environment model, evaluator and value/class/instance
runtime, shallowly embedded from the Rust sources.

Modelling conventions:
* Rust f64 numbers are modelled as rationals; floating-point rounding, NaN
  and the host float formatter are outside the model (rendering of numbers
  is abstracted by a formatter parameter where it matters).
* Shared mutable environment frames (Rc-RefCell in the source) are modelled
  as a store: a list of frames addressed by index, with an enclosing index.
  Instances are likewise a store of (class, field map) entries.
* Hash maps are modelled as association lists with replace-on-insert.
* The interpreter recursion is bounded by explicit fuel; running out of fuel
  is a distinguished outcome (fuelOut) that never arises for terminating
  programs given enough fuel, and models host stack exhaustion.
* Rust panic-or-unreachable aborts are the distinguished outcome panicked.
-/

namespace RustyLox

/-! ## Abstract syntax (syntax.rs)

Tokens carry lexemes and positions; only lexemes are semantically relevant,
so names are plain strings here.  The mutable resolved-distance Cell slots
on Variable, Asign, This and Super nodes are modelled as Option Nat fields;
the resolver produces an annotated copy of the tree instead of mutating. -/

/-- Literal payloads (syntax.rs, Literal). -/
inductive Lit where
  | num (n : Rat)
  | str (s : String)
  | bool (b : Bool)
  | nil

/-- Unary operator token kinds reaching eval_unary. -/
inductive UnOp where
  | neg
  | lnot

/-- Binary operator token kinds reaching eval_binary (TokenType subset). -/
inductive BinOp where
  | plus
  | minus
  | star
  | div
  | greater
  | greaterEq
  | less
  | lessEq
  | landB
  | lorB
  | equal
  | notEqual

mutual

/-- Expressions (syntax.rs, Expr). -/
inductive Expr where
  | lit (l : Lit)
  | grouping (e : Expr)
  | unary (op : UnOp) (e : Expr)
  | binary (left : Expr) (op : BinOp) (right : Expr)
  | varE (name : String) (height : Option Nat)
  | assign (name : String) (height : Option Nat) (value : Expr)
  | logicalOr (left : Expr) (right : Expr)
  | logicalAnd (left : Expr) (right : Expr)
  | call (callee : Expr) (args : List Expr)
  | get (obj : Expr) (name : String)
  | set (obj : Expr) (name : String) (value : Expr)
  | this (height : Option Nat)
  | superE (method : String) (height : Option Nat)

/-- Statements (syntax.rs, Statement). -/
inductive Stmt where
  | varDecl (name : String) (initializer : Option Expr)
  | print (e : Expr)
  | block (stmts : List Stmt)
  | exprStmt (e : Expr)
  | ifS (cond : Expr) (thenB : Stmt) (elseB : Option Stmt)
  | whileS (cond : Expr) (body : Stmt)
  | funDecl (decl : FunctionDecl)
  | returnS (value : Option Expr)
  | classDecl (name : String) (superclass : Option Expr) (methods : List FunctionDecl)

/-- Function declarations (syntax.rs, FunctionDecl). -/
inductive FunctionDecl where
  | mk (name : String) (params : List String) (body : List Stmt)

end

def FunctionDecl.name : FunctionDecl → String
  | .mk n _ _ => n

def FunctionDecl.params : FunctionDecl → List String
  | .mk _ p _ => p

def FunctionDecl.body : FunctionDecl → List Stmt
  | .mk _ _ b => b

/-! ## Runtime values (syntax.rs Value, function.rs, class.rs, instance.rs) -/

/-- A user function value (function.rs, Function): name, parameters, body,
captured environment (a frame index into the environment store) and the
initializer flag passed by eval_class_decl. -/
structure Func where
  name : String
  params : List String
  body : List Stmt
  closure : Nat
  isInit : Bool

/-- A class value (class.rs, Class): name, method table and optional
superclass.  Classes are immutable once built, so the superclass chain is
plain nesting. -/
inductive LoxClass where
  | mk (name : String) (methods : List (String × Func)) (superclass : Option LoxClass)

def LoxClass.name : LoxClass → String
  | .mk n _ _ => n

def LoxClass.methods : LoxClass → List (String × Func)
  | .mk _ m _ => m

def LoxClass.superclass : LoxClass → Option LoxClass
  | .mk _ _ s => s

/-- Runtime values (syntax.rs, Value).  Instance is a reference value:
it holds an index into the instance store. -/
inductive Value where
  | num (n : Rat)
  | str (s : String)
  | bool (b : Bool)
  | nil
  | fn (f : Func)
  | nativeFn (name : String) (arity : Nat)
  | classV (c : LoxClass)
  | instV (id : Nat)

/-- An instance store entry (instance.rs, Instance): class reference plus
mutable field map. -/
structure Inst where
  cls : LoxClass
  fields : List (String × Value)

/-- An environment frame (env.rs, Environment): name-to-value map plus an
optional enclosing frame reference (an index into the store). -/
structure Frame where
  values : List (String × Value)
  enclosing : Option Nat

/-- Interpreter state (interpreter/tree_walker.rs, TreeWalk): the
environment store, the instance store, the current-environment pointer,
the globals pointer, and the lines written by print so far (stored as the
printed values; rendering is a separate function). -/
structure St where
  envs : List Frame
  insts : List Inst
  curEnv : Nat
  globals : Nat
  output : List Value

/-- Runtime errors (interpreter/mod.rs, RuntimeError).  The offending-token
payloads are reduced to the semantically relevant data.  The ret variant is
the non-local Return control signal, a RuntimeError variant in the source.
The panicked and fuelOut variants are model artefacts: panicked stands for a
Rust panic-or-unreachable process abort, fuelOut for exhausting the fuel
bound (host stack exhaustion); neither is a source error value. -/
inductive RErr where
  | incompatibleOperandType (message : String)
  | undefinedVariable (name : String)
  | notValidCallable
  | invalidArgumentCount (expected : Nat) (actual : Nat)
  | notAnInstance
  | undefinedProperty (name : String)
  | superclassMustBeAClass
  | ret (value : Option Value)
  | panicked (message : String)
  | fuelOut

/-! ## Association-list operations modelling HashMap -/

/-- Lookup in an association list (HashMap get by key). -/
def alGet {α : Type} (l : List (String × α)) (k : String) : Option α :=
  match l with
  | [] => none
  | (k', v) :: rest => if k' == k then some v else alGet rest k

/-- Insert-or-replace in an association list (HashMap insert). -/
def alPut {α : Type} (l : List (String × α)) (k : String) (v : α) : List (String × α) :=
  match l with
  | [] => [(k, v)]
  | (k', v') :: rest => if k' == k then (k, v) :: rest else (k', v') :: alPut rest k v

/-- Modify the value at a key only when the key is present
(HashMap entry-and-modify, used by Resolver define). -/
def alModify {α : Type} (l : List (String × α)) (k : String) (v : α) : List (String × α) :=
  match l with
  | [] => []
  | (k', v') :: rest => if k' == k then (k, v) :: rest else (k', v') :: alModify rest k v

/-! ## Environment operations (env.rs) -/

/-- Unconditional insert-or-overwrite in the frame at index i
(env.rs, Environment define). -/
def frameDefine (envs : List Frame) (i : Nat) (name : String) (v : Value) : List Frame :=
  match envs[i]? with
  | some f => envs.set i { f with values := alPut f.values name v }
  | none => envs

/-- Chain-walking read (env.rs, Environment get): current frame first, then
the enclosing chain.  The walk is bounded by fuel; with frames only ever
enclosing lower-indexed frames, fuel i+1 always suffices (see envGet). -/
def envGetF (envs : List Frame) (name : String) : Nat → Nat → Option Value
  | _, 0 => none
  | i, fuel+1 =>
    match envs[i]? with
    | none => none
    | some f =>
      match alGet f.values name with
      | some v => some v
      | none =>
        match f.enclosing with
        | none => none
        | some j => envGetF envs name j fuel

/-- Chain-walking read from frame i (env.rs, Environment get). -/
def envGet (envs : List Frame) (i : Nat) (name : String) : Option Value :=
  envGetF envs name i (i + 1)

/-- Distance-indexed read (env.rs, Environment get_at): height 0 reads the
frame itself, height h+1 follows one enclosing link; absence at any point
gives none. -/
def envGetAt (envs : List Frame) (i : Nat) (name : String) : Nat → Option Value
  | 0 => (envs[i]?).bind (fun (f : Frame) => alGet f.values name)
  | h+1 =>
    match (envs[i]?).bind (fun (f : Frame) => f.enclosing) with
    | some j => envGetAt envs j name h
    | none => none

/-- Chain-walking assignment (env.rs, Environment assign): walks outward to
the first frame owning the name and replaces the binding in place; a chain
with no owner is an UndefinedVariable error.  Fuel-bounded like envGetF. -/
def envAssignF (envs : List Frame) (name : String) (v : Value) :
    Nat → Nat → Except RErr (List Frame)
  | _, 0 => .error (.panicked "environment chain exceeds fuel")
  | i, fuel+1 =>
    match envs[i]? with
    | none => .error (.panicked "dangling environment reference")
    | some f =>
      match alGet f.values name with
      | some _ => .ok (envs.set i { f with values := alPut f.values name v })
      | none =>
        match f.enclosing with
        | none => .error (.undefinedVariable name)
        | some j => envAssignF envs name v j fuel

/-- Chain-walking assignment from frame i (env.rs, Environment assign). -/
def envAssign (envs : List Frame) (i : Nat) (name : String) (v : Value) :
    Except RErr (List Frame) :=
  envAssignF envs name v i (i + 1)

/-- Distance-indexed assignment (env.rs, Environment assign_at): height 0
inserts into the frame itself; height h+1 follows one enclosing link, and a
missing link makes the whole operation a silent no-op (the source maps over
the Option and discards).  It returns no error in any case. -/
def envAssignAt (envs : List Frame) (i : Nat) (name : String) (v : Value) :
    Nat → List Frame
  | 0 =>
    match envs[i]? with
    | some f => envs.set i { f with values := alPut f.values name v }
    | none => envs
  | h+1 =>
    match (envs[i]?).bind (fun (f : Frame) => f.enclosing) with
    | some j => envAssignAt envs j name v h
    | none => envs

/-- Well-formed stores: every enclosing link points to a strictly
lower-indexed frame.  The interpreter only ever appends frames whose
enclosing link points at an existing frame, so this holds at runtime. -/
def EnvWF (envs : List Frame) : Prop :=
  ∀ (i : Nat) (f : Frame) (j : Nat), envs[i]? = some f → f.enclosing = some j → j < i

/-! ## Pure value semantics (tree_walker.rs helpers, PartialEq impls) -/

/-- Literal-to-value conversion (syntax.rs, From Literal for Value). -/
def litToValue : Lit → Value
  | .num n => .num n
  | .str s => .str s
  | .bool b => .bool b
  | .nil => .nil

/-- Truthiness (tree_walker.rs, is_true): only Nil and boolean false are
falsy. -/
def isTrue : Value → Bool
  | .bool b => b
  | .nil => false
  | _ => true

/-- Class equality (class.rs, PartialEq for Class): by name only. -/
def classEq (a b : LoxClass) : Bool :=
  a.name == b.name

/-- Function equality (function.rs, PartialEq for Function): by name
lexeme only. -/
def funcEq (a b : Func) : Bool :=
  a.name == b.name

/-- Instance equality (instance.rs, PartialEq for Instance): by class only,
read through the instance store; fields are not compared.  Dangling ids
never arise at runtime; they compare unequal here. -/
def instEq (insts : List Inst) (i j : Nat) : Bool :=
  match insts[i]?, insts[j]? with
  | some a, some b => classEq a.cls b.cls
  | _, _ => false

/-- Value equality (derived PartialEq for Value in syntax.rs, dispatching
to the manual impls for Function, NativeFunction, Class and Instance):
different variants compare unequal, same variants compare payloads. -/
def valueEq (insts : List Inst) : Value → Value → Bool
  | .num a, .num b => a == b
  | .str a, .str b => a == b
  | .bool a, .bool b => a == b
  | .nil, .nil => true
  | .fn a, .fn b => funcEq a b
  | .nativeFn a _, .nativeFn b _ => a == b
  | .classV a, .classV b => classEq a b
  | .instV a, .instV b => instEq insts a b
  | _, _ => false

/-- Constructor tags, to state that values of different kinds are never
equal. -/
def Value.kind : Value → Nat
  | .num _ => 0
  | .str _ => 1
  | .bool _ => 2
  | .nil => 3
  | .fn _ => 4
  | .nativeFn _ _ => 5
  | .classV _ => 6
  | .instV _ => 7

/-- Binary operator semantics on two already-evaluated operands
(tree_walker.rs, eval_binary match; arm order preserved).  The instance
store is needed because instance equality reads classes through it.  The
final catch-all models the source panic on an operator and operand
combination no arm covers. -/
def binOpEval (insts : List Inst) (l : Value) (op : BinOp) (r : Value) :
    Except RErr Value :=
  match l, op, r with
  | .num a, .plus, .num b => .ok (.num (a + b))
  | .num a, .minus, .num b => .ok (.num (a - b))
  | .num a, .star, .num b => .ok (.num (a * b))
  | .num a, .div, .num b => .ok (.num (a / b))
  | .num a, .greater, .num b => .ok (.bool (b < a))
  | .num a, .greaterEq, .num b => .ok (.bool (b ≤ a))
  | .num a, .less, .num b => .ok (.bool (a < b))
  | .num a, .lessEq, .num b => .ok (.bool (a ≤ b))
  | .str a, .plus, .str b => .ok (.str (a ++ b))
  | .bool a, .landB, .bool b => .ok (.bool (a && b))
  | .bool a, .lorB, .bool b => .ok (.bool (a || b))
  | a, .equal, b => .ok (.bool (valueEq insts a b))
  | a, .notEqual, b => .ok (.bool (!valueEq insts a b))
  | _, .plus, _ | _, .minus, _ | _, .div, _ | _, .star, _
  | _, .greater, _ | _, .greaterEq, _ | _, .less, _ | _, .lessEq, _ =>
    .error (.incompatibleOperandType "Operands must be numbers")
  | _, _, _ => .error (.panicked "Invalid binary operation")

/-- Unary operator semantics (tree_walker.rs, eval_unary). -/
def unOpEval (op : UnOp) (v : Value) : Except RErr Value :=
  match op with
  | .neg =>
    match v with
    | .num n => .ok (.num (-n))
    | _ => .error (.incompatibleOperandType "Operand must be a number")
  | .lnot => .ok (.bool (!isTrue v))

/-! ## Classes, instances and bound methods -/

/-- Method lookup (class.rs, Class method): the class's own table first,
then the superclass chain. -/
def LoxClass.findMethod : LoxClass → String → Option Func
  | .mk _ methods superclass, name =>
    match alGet methods name with
    | some f => some f
    | none =>
      match superclass with
      | some s => s.findMethod name
      | none => none

/-- Callee arity (function.rs arity impls and class.rs Class arity): a
function's parameter count, a native's stored arity, and for a class the
arity of its init method if one exists anywhere in the chain, else 0. -/
def arityOf : Value → Nat
  | .fn f => f.params.length
  | .nativeFn _ a => a
  | .classV c =>
    match c.findMethod "init" with
    | some f => f.params.length
    | none => 0
  | _ => 0

/-- True exactly for the three callable value kinds. -/
def isCallable : Value → Bool
  | .fn _ => true
  | .nativeFn _ _ => true
  | .classV _ => true
  | _ => false

/-- Method binding (function.rs, Function bind): allocate a fresh frame
enclosing the method's closure, define this in it as the instance, and
return the same function re-closed over that frame. -/
def bindFunc (st : St) (f : Func) (instId : Nat) : St × Func :=
  let newId := st.envs.length
  let st := { st with envs := st.envs ++ [({ values := [], enclosing := some f.closure } : Frame)] }
  let st := { st with envs := frameDefine st.envs newId "this" (.instV instId) }
  (st, { f with closure := newId })

/-- Property read (instance.rs, Instance get): field map first, then the
class method chain; a method hit allocates a freshly bound function.
A dangling instance id models a dangling reference and cannot arise. -/
def instanceGet (st : St) (id : Nat) (name : String) : St × Except RErr Value :=
  match st.insts[id]? with
  | none => (st, .error (.panicked "dangling instance reference"))
  | some inst =>
    match alGet inst.fields name with
    | some v => (st, .ok v)
    | none =>
      match inst.cls.findMethod name with
      | some m =>
        let p := bindFunc st m id
        (p.1, .ok (.fn p.2))
      | none => (st, .error (.undefinedProperty name))

/-- Field write (instance.rs, Instance set): unconditionally inserts,
creating the field if absent. -/
def setField (st : St) (id : Nat) (name : String) (v : Value) : St :=
  match st.insts[id]? with
  | some inst => { st with insts := st.insts.set id { inst with fields := alPut inst.fields name v } }
  | none => st

/-! ## Variable lookup at run time (tree_walker.rs, lookup_var) -/

/-- Annotated reads (tree_walker.rs, lookup_var): with a resolved height,
distance-indexed read from the current frame; with none, a read on the
globals frame (whose chain is itself alone, having no enclosing frame). -/
def lookupVar (st : St) (name : String) (height : Option Nat) : Option Value :=
  match height with
  | some h => envGetAt st.envs st.curEnv name h
  | none => envGet st.envs st.globals name

/-! ## Rendering (Display impls in syntax.rs, function.rs, class.rs,
instance.rs)

The host's default f64 formatter is abstracted as the fmtNum parameter;
all other kinds render concretely.  Instance rendering reads the class
through the instance store. -/

/-- Rendering of a value as printed by the print statement, one line per
value (println).  fmtNum stands for the Rust default Display formatting of
f64. -/
def render (fmtNum : Rat → String) (insts : List Inst) : Value → String
  | .num n => fmtNum n
  | .str s => s
  | .bool b => if b then "true" else "false"
  | .nil => "nil"
  | .classV c => c.name
  | .instV id =>
    match insts[id]? with
    | some inst => inst.cls.name ++ " instance"
    | none => "dangling instance"
  | .fn f => "<fn " ++ f.name ++ ">"
  | .nativeFn _ _ => "<native fn>"

/-! ## The evaluator (interpreter/tree_walker.rs, function.rs, class.rs)

Every evaluation step returns the updated state together with an Except
outcome; on an error outcome the state reached so far survives, exactly as
the interpreter struct survives a question-mark early return in Rust. -/

/-- Error-propagating sequencing: the model of the Rust question-mark
operator on interpreter results. -/
def bindRes {α β : Type} (r : St × Except RErr α) (k : St → α → St × Except RErr β) :
    St × Except RErr β :=
  match r with
  | (st, .ok a) => k st a
  | (st, .error e) => (st, .error e)

/-- Superclass dispatch (tree_walker.rs, eval_super): look super up through
the resolved height, re-derive the active instance from the frame one level
nearer than super, look the method up starting at the superclass, and bind
it to that instance.  The source unwraps and panics when super is not a
class value, the height slot is empty, the height is 0 (usize underflow on
height minus one), or this is missing; those paths are unreachable for
resolver-annotated programs. -/
def evalSuper (st : St) (method : String) (height : Option Nat) :
    St × Except RErr Value :=
  match lookupVar st "super" height with
  | some (.classV sc) =>
    match height with
    | none => (st, .error (.panicked "unwrap on empty height slot"))
    | some 0 => (st, .error (.panicked "usize underflow computing height minus one"))
    | some (h+1) =>
      match envGetAt st.envs st.curEnv "this" h with
      | some (.instV objId) =>
        match sc.findMethod method with
        | none => (st, .error (.undefinedProperty method))
        | some m =>
          let p := bindFunc st m objId
          (p.1, .ok (.fn p.2))
      | _ => (st, .error (.panicked "this not found"))
  | _ => (st, .error (.panicked "superclass not found"))

/-- Parameter binding (function.rs, Function call): define each parameter
in the fresh call frame, in order, from the evaluated argument values. -/
def defineParams (envs : List Frame) (i : Nat) :
    List String → List Value → List Frame
  | [], _ => envs
  | p :: ps, v :: vs => defineParams (frameDefine envs i p v) i ps vs
  | _ :: _, [] => envs

/-- The bound this of an initializer, read back out of the function's own
closure frame at distance 0.  The nil default is unreachable: bind always
defines this in that frame. -/
def readThis (st : St) (f : Func) : Value :=
  (envGetAt st.envs f.closure "this" 0).getD .nil

/-- Method-table construction for a class declaration (tree_walker.rs,
eval_class_decl): each declared method closes over the given frame by
reference, and the method literally named init is marked as the
initializer.  Collecting into a HashMap keeps the last of duplicate names,
matched here by replace-on-insert. -/
def buildMethods (methods : List FunctionDecl) (closure : Nat) :
    List (String × Func) :=
  methods.foldl
    (fun acc d =>
      alPut acc d.name
        { name := d.name, params := d.params, body := d.body,
          closure := closure, isInit := d.name == "init" })
    []

/-- Final chain-walking assignment of the completed class value over the
predeclared name (tree_walker.rs, eval_class_decl tail). -/
def finishClassAssign (st : St) (name : String) (cls : LoxClass) :
    St × Except RErr Unit :=
  match envAssign st.envs st.curEnv name (.classV cls) with
  | .ok envs => ({ st with envs := envs }, .ok ())
  | .error e => (st, .error e)

/-- Class construction after the superclass expression has been evaluated
(tree_walker.rs, eval_class_decl body): predefine the name as Nil; with a
superclass, push a wrapper frame defining super and build methods over it,
then pop back through the wrapper's enclosing link; finally assign the
completed class over the predeclared name. -/
def classDeclCont (st : St) (name : String) (superclass : Option LoxClass)
    (methods : List FunctionDecl) : St × Except RErr Unit :=
  let st := { st with envs := frameDefine st.envs st.curEnv name .nil }
  match superclass with
  | some sc =>
    let pushedId := st.envs.length
    let st := { st with
      envs := st.envs ++ [({ values := [], enclosing := some st.curEnv } : Frame)],
      curEnv := pushedId }
    let st := { st with envs := frameDefine st.envs st.curEnv "super" (.classV sc) }
    let ms := buildMethods methods st.curEnv
    let cls := LoxClass.mk name ms (some sc)
    match (st.envs[st.curEnv]?).bind (fun (f : Frame) => f.enclosing) with
    | some encl => finishClassAssign { st with curEnv := encl } name cls
    | none => (st, .error (.panicked "unwrap on missing enclosing frame"))
  | none =>
    let ms := buildMethods methods st.curEnv
    let cls := LoxClass.mk name ms none
    finishClassAssign st name cls

mutual

/-- Expression evaluation (tree_walker.rs, eval_expr and its helpers).
Fuel bounds the recursion depth; every recursive call consumes one unit. -/
def evalExpr : Nat → St → Expr → St × Except RErr Value
  | 0, st, _ => (st, .error .fuelOut)
  | fuel+1, st, e =>
    match e with
    | .lit l => (st, .ok (litToValue l))
    | .grouping e => evalExpr fuel st e
    | .unary op e =>
      bindRes (evalExpr fuel st e) fun st v => (st, unOpEval op v)
    | .binary l op r =>
      bindRes (evalExpr fuel st l) fun st lv =>
      bindRes (evalExpr fuel st r) fun st rv =>
      (st, binOpEval st.insts lv op rv)
    | .varE name height =>
      match lookupVar st name height with
      | some v => (st, .ok v)
      | none => (st, .error (.undefinedVariable name))
    | .this height =>
      match lookupVar st "this" height with
      | some v => (st, .ok v)
      | none => (st, .error (.undefinedVariable "this"))
    | .assign name height value =>
      bindRes (evalExpr fuel st value) fun st v =>
        match height with
        | some h => ({ st with envs := envAssignAt st.envs st.curEnv name v h }, .ok v)
        | none =>
          match envAssign st.envs st.globals name v with
          | .ok envs => ({ st with envs := envs }, .ok v)
          | .error e => (st, .error e)
    | .logicalOr l r =>
      bindRes (evalExpr fuel st l) fun st v =>
        if isTrue v then (st, .ok v) else evalExpr fuel st r
    | .logicalAnd l r =>
      bindRes (evalExpr fuel st l) fun st v =>
        if isTrue v then evalExpr fuel st r else (st, .ok v)
    | .call callee args =>
      bindRes (evalExpr fuel st callee) fun st c =>
        if isCallable c then
          if args.length = arityOf c then
            bindRes (evalArgs fuel st args) fun st vs =>
              match c with
              | .fn f => callFunction fuel st f vs
              | .nativeFn _ _ => (st, .ok (.num 0))
              | .classV cls => classInit fuel st cls vs
              | _ => (st, .error (.panicked "unreachable callable"))
          else (st, .error (.invalidArgumentCount (arityOf c) args.length))
        else (st, .error .notValidCallable)
    | .get obj name =>
      bindRes (evalExpr fuel st obj) fun st v =>
        match v with
        | .instV id => instanceGet st id name
        | _ => (st, .error .notAnInstance)
    | .set obj name value =>
      bindRes (evalExpr fuel st obj) fun st ov =>
        match ov with
        | .instV id =>
          bindRes (evalExpr fuel st value) fun st v =>
            (setField st id name v, .ok v)
        | _ => (st, .error .notAnInstance)
    | .superE method height => evalSuper st method height
termination_by structural fuel _ _ => fuel

/-- Optional-expression evaluation with Nil default (the repeated pattern
for var initializers and return values). -/
def evalOpt : Nat → St → Option Expr → St × Except RErr Value
  | 0, st, _ => (st, .error .fuelOut)
  | fuel+1, st, o =>
    match o with
    | some e => evalExpr fuel st e
    | none => (st, .ok .nil)
termination_by structural fuel _ _ => fuel

/-- Argument evaluation (tree_walker.rs, eval_call): left to right in the
caller's current frame, stopping at the first error. -/
def evalArgs : Nat → St → List Expr → St × Except RErr (List Value)
  | 0, st, _ => (st, .error .fuelOut)
  | fuel+1, st, args =>
    match args with
    | [] => (st, .ok [])
    | e :: rest =>
      bindRes (evalExpr fuel st e) fun st v =>
      bindRes (evalArgs fuel st rest) fun st vs =>
      (st, .ok (v :: vs))
termination_by structural fuel _ _ => fuel

/-- Statement evaluation (tree_walker.rs, eval_stmt and its helpers). -/
def evalStmt : Nat → St → Stmt → St × Except RErr Unit
  | 0, st, _ => (st, .error .fuelOut)
  | fuel+1, st, s =>
    match s with
    | .varDecl name initializer =>
      bindRes (evalOpt fuel st initializer) fun st v =>
        ({ st with envs := frameDefine st.envs st.curEnv name v }, .ok ())
    | .print e =>
      bindRes (evalExpr fuel st e) fun st v =>
        ({ st with output := st.output ++ [v] }, .ok ())
    | .exprStmt e =>
      bindRes (evalExpr fuel st e) fun st _ => (st, .ok ())
    | .block stmts =>
      let newId := st.envs.length
      let st := { st with
        envs := st.envs ++ [({ values := [], enclosing := some st.curEnv } : Frame)] }
      evalBlock fuel st stmts newId
    | .ifS c t e =>
      bindRes (evalExpr fuel st c) fun st v =>
        if isTrue v then evalStmt fuel st t
        else
          match e with
          | some e => evalStmt fuel st e
          | none => (st, .ok ())
    | .whileS c b =>
      bindRes (evalExpr fuel st c) fun st v =>
        if isTrue v then
          bindRes (evalStmt fuel st b) fun st _ => evalStmt fuel st (.whileS c b)
        else (st, .ok ())
    | .funDecl d =>
      let fv : Value := .fn { name := d.name, params := d.params, body := d.body,
                              closure := st.curEnv, isInit := false }
      ({ st with envs := frameDefine st.envs st.curEnv d.name fv }, .ok ())
    | .returnS value =>
      bindRes (evalOpt fuel st value) fun st v =>
        (st, .error (.ret (some v)))
    | .classDecl name superE methods => evalClassDecl fuel st name superE methods
termination_by structural fuel _ _ => fuel

/-- Class declaration (tree_walker.rs, eval_class_decl): the superclass
expression, when present, must be a Variable node (anything else is an
unreachable panic) and must evaluate to a class value, else
SuperclassMustBeAClass; the rest is classDeclCont. -/
def evalClassDecl : Nat → St → String → Option Expr → List FunctionDecl →
    St × Except RErr Unit
  | 0, st, _, _, _ => (st, .error .fuelOut)
  | fuel+1, st, name, superE, methods =>
    match superE with
    | some (.varE sname sheight) =>
      bindRes (evalExpr fuel st (.varE sname sheight)) fun st sv =>
        match sv with
        | .classV sc => classDeclCont st name (some sc) methods
        | _ => (st, .error .superclassMustBeAClass)
    | none => classDeclCont st name none methods
    | some _ => (st, .error (.panicked "unreachable superclass expression"))
termination_by structural fuel _ _ _ _ => fuel

/-- Statement-list execution inside a block, in order, stopping at the
first error outcome. -/
def evalStmts : Nat → St → List Stmt → St × Except RErr Unit
  | 0, st, _ => (st, .error .fuelOut)
  | fuel+1, st, stmts =>
    match stmts with
    | [] => (st, .ok ())
    | s :: rest =>
      bindRes (evalStmt fuel st s) fun st _ => evalStmts fuel st rest
termination_by structural fuel _ _ => fuel

/-- Block execution (tree_walker.rs, eval_block_stmt): save the
current-environment pointer, run the statements in the supplied frame, and
restore the saved pointer on every exit path, ok and error alike. -/
def evalBlock : Nat → St → List Stmt → Nat → St × Except RErr Unit
  | 0, st, _, _ => (st, .error .fuelOut)
  | fuel+1, st, stmts, envId =>
    let old := st.curEnv
    let p := evalStmts fuel { st with curEnv := envId } stmts
    ({ p.1 with curEnv := old }, p.2)
termination_by structural fuel _ _ _ => fuel

/-- Modelled from the spec: the function-call body run.  The current
Function implementation invoked by the evaluator (the three-argument
Function constructor taking the initializer flag, seen at its call sites in
tree_walker.rs) is not among the sources; src/src/function.rs is a stale
snapshot of an earlier Function without that flag.  Per the spec's
function-call protocol: a new frame is created as a child of the function's
captured closure, never of the caller's frame; parameters are defined there
in order from the evaluated argument values; the body block executes in
that frame.  Fewer arguments than parameters would panic on unwrap in the
source iterator; the arity check at the call site rules that out. -/
def runBody : Nat → St → Func → List Value → St × Except RErr Unit
  | 0, st, _, _ => (st, .error .fuelOut)
  | fuel+1, st, f, args =>
    if args.length < f.params.length then
      (st, .error (.panicked "unwrap on exhausted argument iterator"))
    else
      let newId := st.envs.length
      let st := { st with
        envs := st.envs ++ [({ values := [], enclosing := some f.closure } : Frame)] }
      let st := { st with envs := defineParams st.envs newId f.params args }
      evalBlock fuel st f.body newId
termination_by structural fuel _ _ _ => fuel

/-- Modelled from the spec: the call boundary of a user function (see
runBody for what is missing from the sources).  A Return signal is caught
here and supplies the result, Nil if the body completes without returning;
if the function is an initializer, the call result is always the bound this
read back out of its own closure, overriding whatever the body returned.
Other errors propagate. -/
def callFunction : Nat → St → Func → List Value → St × Except RErr Value
  | 0, st, _, _ => (st, .error .fuelOut)
  | fuel+1, st, f, args =>
    match runBody fuel st f args with
    | (st, .ok ()) =>
      if f.isInit then (st, .ok (readThis st f)) else (st, .ok .nil)
    | (st, .error (.ret v)) =>
      if f.isInit then (st, .ok (readThis st f)) else (st, .ok (v.getD .nil))
    | (st, .error e) => (st, .error e)
termination_by structural fuel _ _ _ => fuel

/-- Constructor call (class.rs, Class init): construct a fresh instance of
the class; if an init method exists anywhere in the ancestor chain, bind it
to the new instance and invoke it with the call's arguments, propagating
its errors but discarding its value; the result is always the constructed
instance. -/
def classInit : Nat → St → LoxClass → List Value → St × Except RErr Value
  | 0, st, _, _ => (st, .error .fuelOut)
  | fuel+1, st, cls, args =>
    let instId := st.insts.length
    let st := { st with insts := st.insts ++ [({ cls := cls, fields := [] } : Inst)] }
    match cls.findMethod "init" with
    | none => (st, .ok (.instV instId))
    | some initM =>
      let p := bindFunc st initM instId
      bindRes (callFunction fuel p.1 p.2 args) fun st _ => (st, .ok (.instV instId))
termination_by structural fuel _ _ _ => fuel

end

/-! ## The resolver (resolver.rs)

The resolver pass walks the statement list once before evaluation,
maintaining a stack of scope maps from name to a defined flag plus the
ambient function and class contexts, and fills the height slots.  The
source mutates Cell slots in place; here the pass returns an annotated copy
of the tree.  The scope stack is kept innermost-first (the source Vec is
pushed and read from its back, which this list order mirrors exactly). -/

/-- Ambient function context (resolver.rs, ScopeType). -/
inductive ScopeType where
  | functionS
  | methodS
  | initializerS
  | normalS
deriving BEq

/-- Ambient class context (resolver.rs, ClassType). -/
inductive ClassType where
  | classC
  | subclassC
  | noneC

/-- Resolver state (resolver.rs, Resolver): scope stack (innermost first),
function context, class context, accumulated-error flag. -/
structure RState where
  scopes : List (List (String × Bool))
  currentScope : ScopeType
  currentClass : ClassType
  hasErr : Bool

/-- Height computation (resolver.rs, annotate): scan the scope stack
innermost to outermost and return the 0-based index of the first scope
containing the name; when no scope contains it the slot is left empty. -/
def annotateHeight (scopes : List (List (String × Bool))) (name : String) : Option Nat :=
  scopes.findIdx? (fun s => (alGet s name).isSome)

/-- Push a fresh innermost scope (resolver.rs, begin_scope). -/
def beginScope (r : RState) : RState :=
  { r with scopes := [] :: r.scopes }

/-- Pop the innermost scope (resolver.rs, end_scope). -/
def endScope (r : RState) : RState :=
  { r with scopes := r.scopes.tail }

/-- Declare a name in the innermost scope as declared-but-not-defined
(resolver.rs, declare); redeclaring a name already present in that scope is
a static error, and with no scope open (top level) this is a no-op. -/
def declare (r : RState) (name : String) : RState :=
  match r.scopes with
  | [] => r
  | s :: rest =>
    let dup := (alGet s name).isSome
    { r with hasErr := r.hasErr || dup, scopes := alPut s name false :: rest }

/-- Mark a declared name as defined in the innermost scope (resolver.rs,
define): modifies the entry only when present, inserts nothing. -/
def defineName (r : RState) (name : String) : RState :=
  match r.scopes with
  | [] => r
  | s :: rest => { r with scopes := alModify s name true :: rest }

/-- Insert a synthetic binding as already defined into the innermost scope
(resolver.rs, the direct scope inserts of super and this). -/
def scopeInsertTrue (r : RState) (name : String) : RState :=
  match r.scopes with
  | [] => r
  | s :: rest => { r with scopes := alPut s name true :: rest }

/-- Fuel-out propagation for the resolver pass: the resolver recursion is
bounded by fuel exactly like the evaluator; none marks fuel exhaustion and
never arises at the fuel bounds used below. -/
def rbind {α β : Type} (o : Option (RState × α)) (k : RState → α → Option (RState × β)) :
    Option (RState × β) :=
  match o with
  | some (r, a) => k r a
  | none => none

mutual

/-- Expression resolution (resolver.rs, resolve_expr), producing the
annotated copy. -/
def resolveExpr : Nat → RState → Expr → Option (RState × Expr)
  | 0, _, _ => none
  | fuel+1, r, e =>
    match e with
    | .lit l => some (r, .lit l)
    | .grouping e =>
      rbind (resolveExpr fuel r e) fun r e => some (r, .grouping e)
    | .unary op e =>
      rbind (resolveExpr fuel r e) fun r e => some (r, .unary op e)
    | .binary l op rt =>
      rbind (resolveExpr fuel r l) fun r l =>
      rbind (resolveExpr fuel r rt) fun r rt =>
      some (r, .binary l op rt)
    | .logicalOr l rt =>
      rbind (resolveExpr fuel r l) fun r l =>
      rbind (resolveExpr fuel r rt) fun r rt =>
      some (r, .logicalOr l rt)
    | .logicalAnd l rt =>
      rbind (resolveExpr fuel r l) fun r l =>
      rbind (resolveExpr fuel r rt) fun r rt =>
      some (r, .logicalAnd l rt)
    | .varE name _ =>
      let ownInit := ((r.scopes.head?).map (fun s => alGet s name == some false)).getD false
      let r := if ownInit then { r with hasErr := true } else r
      some (r, .varE name (annotateHeight r.scopes name))
    | .assign name _ value =>
      rbind (resolveExpr fuel r value) fun r value =>
      some (r, .assign name (annotateHeight r.scopes name) value)
    | .call callee args =>
      rbind (resolveExpr fuel r callee) fun r callee =>
      rbind (resolveExprs fuel r args) fun r args =>
      some (r, .call callee args)
    | .get obj name =>
      rbind (resolveExpr fuel r obj) fun r obj => some (r, .get obj name)
    | .set obj name value =>
      rbind (resolveExpr fuel r value) fun r value =>
      rbind (resolveExpr fuel r obj) fun r obj =>
      some (r, .set obj name value)
    | .this _ =>
      match r.currentClass with
      | .noneC => some ({ r with hasErr := true }, .this none)
      | _ => some (r, .this (annotateHeight r.scopes "this"))
    | .superE method _ =>
      match r.currentClass with
      | .noneC => some ({ r with hasErr := true }, .superE method none)
      | .classC => some ({ r with hasErr := true }, .superE method none)
      | .subclassC => some (r, .superE method (annotateHeight r.scopes "super"))
termination_by structural fuel _ _ => fuel

/-- Argument-list resolution, in order. -/
def resolveExprs : Nat → RState → List Expr → Option (RState × List Expr)
  | 0, _, _ => none
  | fuel+1, r, es =>
    match es with
    | [] => some (r, [])
    | e :: rest =>
      rbind (resolveExpr fuel r e) fun r e =>
      rbind (resolveExprs fuel r rest) fun r rest =>
      some (r, e :: rest)
termination_by structural fuel _ _ => fuel

/-- Statement resolution (resolver.rs, resolve_stmt). -/
def resolveStmt : Nat → RState → Stmt → Option (RState × Stmt)
  | 0, _, _ => none
  | fuel+1, r, s =>
    match s with
    | .varDecl name initializer =>
      let r := declare r name
      match initializer with
      | some e =>
        rbind (resolveExpr fuel r e) fun r e =>
        some (defineName r name, .varDecl name (some e))
      | none => some (defineName r name, .varDecl name none)
    | .print e =>
      rbind (resolveExpr fuel r e) fun r e => some (r, .print e)
    | .exprStmt e =>
      rbind (resolveExpr fuel r e) fun r e => some (r, .exprStmt e)
    | .block stmts =>
      rbind (resolveStmts fuel (beginScope r) stmts) fun r stmts =>
      some (endScope r, .block stmts)
    | .ifS c t e =>
      rbind (resolveExpr fuel r c) fun r c =>
      rbind (resolveStmt fuel r t) fun r t =>
        match e with
        | some el =>
          rbind (resolveStmt fuel r el) fun r el => some (r, .ifS c t (some el))
        | none => some (r, .ifS c t none)
    | .whileS c b =>
      rbind (resolveExpr fuel r c) fun r c =>
      rbind (resolveStmt fuel r b) fun r b =>
      some (r, .whileS c b)
    | .funDecl (.mk name params body) =>
      let r := defineName (declare r name) name
      rbind (resolveFunction fuel r params body .functionS) fun r body =>
      some (r, .funDecl (.mk name params body))
    | .returnS value =>
      let r := if r.currentScope == .normalS then { r with hasErr := true } else r
      match value with
      | some v =>
        let r := if r.currentScope == .initializerS then { r with hasErr := true } else r
        rbind (resolveExpr fuel r v) fun r v => some (r, .returnS (some v))
      | none => some (r, .returnS none)
    | .classDecl name superE methods =>
      let oldClass := r.currentClass
      let r := { r with currentClass := .classC }
      let r := defineName (declare r name) name
      match superE with
      | some (.varE sname sheight) =>
        let r := if sname == name then { r with hasErr := true } else r
        let r := { r with currentClass := .subclassC }
        rbind (resolveExpr fuel r (.varE sname sheight)) fun r sE =>
        let r := scopeInsertTrue (beginScope r) "super"
        let r := scopeInsertTrue (beginScope r) "this"
        rbind (resolveMethods fuel r methods) fun r methods =>
        let r := endScope (endScope r)
        some ({ r with currentClass := oldClass }, .classDecl name (some sE) methods)
      | none =>
        let r := scopeInsertTrue (beginScope r) "this"
        rbind (resolveMethods fuel r methods) fun r methods =>
        let r := endScope r
        some ({ r with currentClass := oldClass }, .classDecl name none methods)
      | some other =>
        let r := scopeInsertTrue (beginScope r) "this"
        rbind (resolveMethods fuel r methods) fun r methods =>
        let r := endScope r
        some ({ r with currentClass := oldClass }, .classDecl name (some other) methods)
termination_by structural fuel _ _ => fuel

/-- Statement-list resolution, in order (also the whole-program loop of
main, which feeds every top-level statement to the same resolver). -/
def resolveStmts : Nat → RState → List Stmt → Option (RState × List Stmt)
  | 0, _, _ => none
  | fuel+1, r, stmts =>
    match stmts with
    | [] => some (r, [])
    | s :: rest =>
      rbind (resolveStmt fuel r s) fun r s =>
      rbind (resolveStmts fuel r rest) fun r rest =>
      some (r, s :: rest)
termination_by structural fuel _ _ => fuel

/-- Method-list resolution inside a class body (resolver.rs,
resolve_class_decl loop): the method named init resolves in Initializer
context, all others in Method context. -/
def resolveMethods : Nat → RState → List FunctionDecl → Option (RState × List FunctionDecl)
  | 0, _, _ => none
  | fuel+1, r, ms =>
    match ms with
    | [] => some (r, [])
    | .mk mname mparams mbody :: rest =>
      let ty := if mname == "init" then ScopeType.initializerS else ScopeType.methodS
      rbind (resolveFunction fuel r mparams mbody ty) fun r mbody =>
      rbind (resolveMethods fuel r rest) fun r rest =>
      some (r, .mk mname mparams mbody :: rest)
termination_by structural fuel _ _ => fuel

/-- Function-body resolution (resolver.rs, resolve_function): save and set
the function context, open a scope, declare-and-define each parameter,
resolve the body, close the scope, restore the context. -/
def resolveFunction : Nat → RState → List String → List Stmt → ScopeType →
    Option (RState × List Stmt)
  | 0, _, _, _, _ => none
  | fuel+1, r, params, body, ty =>
    let old := r.currentScope
    let r := { r with currentScope := ty }
    let r := params.foldl (fun r p => defineName (declare r p) p) (beginScope r)
    rbind (resolveStmts fuel r body) fun r body =>
    some ({ endScope r with currentScope := old }, body)
termination_by structural fuel _ _ _ _ => fuel

end

/-- Fresh resolver state (resolver.rs, Resolver new). -/
def initRState : RState :=
  { scopes := [], currentScope := .normalS, currentClass := .noneC, hasErr := false }

/-- Whole-program resolution: every top-level statement through one
resolver, as in the run entry point of main.rs. -/
def resolveProgram (fuel : Nat) (prog : List Stmt) : Option (RState × List Stmt) :=
  resolveStmts fuel initRState prog

/-! ## Top-level driving (main.rs run, interpreter construction) -/

/-- Fresh interpreter state (tree_walker.rs, TreeWalk new): a single
globals frame holding the clock native, with the current-environment
pointer aliasing it. -/
def initSt : St :=
  { envs := [{ values := [("clock", Value.nativeFn "clock" 0)], enclosing := none }],
    insts := [], curEnv := 0, globals := 0, output := [] }

/-- Top-level statement loop (main.rs run): interpret each statement in
order, stopping at the first runtime error. -/
def runTop (fuel : Nat) : St → List Stmt → St × Except RErr Unit
  | st, [] => (st, .ok ())
  | st, s :: rest => bindRes (evalStmt fuel st s) fun st _ => runTop fuel st rest

/-- Resolve then evaluate a program from scratch.  The first component is
the resolver's error flag; main refuses to execute when it is set, so
program-level theorems assert it to be false alongside the run outcome.
A none result is fuel exhaustion in the resolver and never arises below. -/
def runProgram (fuel : Nat) (prog : List Stmt) : Option (Bool × (St × Except RErr Unit)) :=
  match resolveProgram fuel prog with
  | some (r, prog) => some (r.hasErr, runTop fuel initSt prog)
  | none => none

/-! ## Concrete programs and fixtures used by the claim theorems -/

/-- The class and instance store of the C3 counterexample: two instances of
the same class whose field contents differ. -/
def c3Class : LoxClass := .mk "C" [] none

def c3Insts : List Inst :=
  [{ cls := c3Class, fields := [("x", .num 1)] },
   { cls := c3Class, fields := [("x", .num 2)] }]

/-- The ancestor chain of a class: itself, then its superclasses in
order. -/
def ancestors : LoxClass → List LoxClass
  | .mk n m s =>
    .mk n m s ::
      (match s with
       | some sc => ancestors sc
       | none => [])

def c1Func : Func :=
  { name := "init", params := [], body := [.returnS none], closure := 0, isInit := true }

def c1St : St :=
  { envs := [{ values := [("this", .instV 0)], enclosing := none }],
    insts := [], curEnv := 0, globals := 0, output := [] }

def c2Cls : LoxClass :=
  .mk "C"
    [("init", { name := "init", params := [], body := [.returnS none],
                closure := 0, isInit := true })]
    none

def c2Prog : List Stmt :=
  [.classDecl "C" none [.mk "init" [] [.returnS none]],
   .print (.call (.varE "C" none) [])]

def c5Prog : List Stmt :=
  [.block [.varDecl "a" (some (.lit (.num 1))),
           .block [.print (.varE "a" none)]]]

/-- The C7 evaluation-order program: x starts empty, f prints x, and the
call evaluates its two argument assignments before the body runs.  The
single output line ab shows the arguments were evaluated left to right, in
the caller's frame, before invocation. -/
def c7OrderProg : List Stmt :=
  [.varDecl "x" (some (.lit (.str ""))),
   .funDecl (.mk "f" ["a", "b"] [.print (.varE "x" none)]),
   .exprStmt (.call (.varE "f" none)
     [.assign "x" none (.binary (.varE "x" none) .plus (.lit (.str "a"))),
      .assign "x" none (.binary (.varE "x" none) .plus (.lit (.str "b")))])]

/-- A state whose globals hold one two-parameter function, for witnesses. -/
def c7St : St :=
  { envs := [{ values :=
      [("f", .fn { name := "f", params := ["a", "b"], body := [],
                   closure := 0, isInit := false })], enclosing := none }],
    insts := [], curEnv := 0, globals := 0, output := [] }

/-- The C10 program: the global x is 1, f takes two parameters, and the
call passes a single argument whose evaluation would set x to 99. -/
def c10Prog : List Stmt :=
  [.varDecl "x" (some (.lit (.num 1))),
   .funDecl (.mk "f" ["a", "b"] []),
   .exprStmt (.call (.varE "f" none) [.assign "x" none (.lit (.num 99))])]

/-! ## General lemmas -/

theorem bindRes_ok {α β : Type} (st : St) (a : α) (k : St → α → St × Except RErr β) :
    bindRes (st, .ok a) k = k st a := rfl

theorem bindRes_err {α β : Type} (st : St) (e : RErr) (k : St → α → St × Except RErr β) :
    bindRes (st, .error e) k = (st, .error e) := rfl

/-! ## Equality semantics (claim C3 territory) -/

theorem binOpEval_equal_total (insts : List Inst) (l r : Value) :
    binOpEval insts l .equal r = .ok (.bool (valueEq insts l r)) := by
  cases l <;> cases r <;> rfl

theorem binOpEval_notEqual_total (insts : List Inst) (l r : Value) :
    binOpEval insts l .notEqual r = .ok (.bool (!valueEq insts l r)) := by
  cases l <;> cases r <;> rfl

theorem valueEq_kind_mismatch (insts : List Inst) (l r : Value)
    (h : l.kind ≠ r.kind) : valueEq insts l r = false := by
  cases l <;> cases r <;> first | rfl | exact absurd rfl h

theorem valueEq_instV (insts : List Inst) (i j : Nat) (a b : Inst)
    (ha : insts[i]? = some a) (hb : insts[j]? = some b) :
    valueEq insts (.instV i) (.instV j) = (a.cls.name == b.cls.name) := by
  simp only [valueEq, instEq, ha, hb, classEq]

/-! ## Claim C3: equality -/

/-- C3 counterexample: equality on Instance values is not structural.  Two
instances of the same class with different field contents (x is 1 in one
and 2 in the other) nevertheless compare equal, because the Instance
PartialEq impl compares classes only and the Class impl compares names
only. -/
theorem c3_structural_equality_counterexample :
    valueEq c3Insts (.instV 0) (.instV 1) = true ∧
    (c3Insts[0]?).bind (fun a => alGet a.fields "x") = some (.num 1) ∧
    (c3Insts[1]?).bind (fun a => alGet a.fields "x") = some (.num 2) ∧
    Value.num 1 ≠ Value.num 2 := by
  refine ⟨rfl, rfl, rfl, ?_⟩
  intro h
  have : (1 : Rat) = 2 := by injection h
  norm_num at this

/-- C3 (amended): evaluating the equality operators never raises a runtime
error for any pair of operand values; operands of different value kinds
compare unequal with no coercion; equality is structural for Number,
String, Bool and Nil; but Function and NativeFunction values compare by
name, Class values compare by class name, and Instance values compare by
their classes (hence by class name) with field contents ignored. -/
theorem c3_equality :
    (∀ insts l r, binOpEval insts l .equal r = .ok (.bool (valueEq insts l r)) ∧
       binOpEval insts l .notEqual r = .ok (.bool (!valueEq insts l r))) ∧
    (∀ insts l r, l.kind ≠ r.kind → valueEq insts l r = false) ∧
    (∀ insts a b, valueEq insts (.num a) (.num b) = (a == b)) ∧
    (∀ insts a b, valueEq insts (.str a) (.str b) = (a == b)) ∧
    (∀ insts a b, valueEq insts (.bool a) (.bool b) = (a == b)) ∧
    (∀ insts, valueEq insts .nil .nil = true) ∧
    (∀ insts f g, valueEq insts (.fn f) (.fn g) = (f.name == g.name)) ∧
    (∀ insts a x b y, valueEq insts (.nativeFn a x) (.nativeFn b y) = (a == b)) ∧
    (∀ insts c d, valueEq insts (.classV c) (.classV d) = (c.name == d.name)) ∧
    (∀ insts i j a b, insts[i]? = some a → insts[j]? = some b →
       valueEq insts (.instV i) (.instV j) = (a.cls.name == b.cls.name)) := by
  refine ⟨?_, ?_, ?_, ?_, ?_, ?_, ?_, ?_, ?_, ?_⟩
  · exact fun insts l r => ⟨binOpEval_equal_total insts l r, binOpEval_notEqual_total insts l r⟩
  · exact valueEq_kind_mismatch
  · intro insts a b; rfl
  · intro insts a b; rfl
  · intro insts a b; rfl
  · intro insts; rfl
  · intro insts f g; rfl
  · intro insts a x b y; rfl
  · intro insts c d; rfl
  · exact fun insts i j a b ha hb => valueEq_instV insts i j a b ha hb

/-- C3 witness: the amended theorem at concrete inputs, covering the
no-coercion example 1 == "1" and the by-class instance comparison. -/
theorem c3_equality_witness :
    binOpEval [] (.num 1) .equal (.str "1") = .ok (.bool (valueEq [] (.num 1) (.str "1"))) ∧
    valueEq [] (.num 1) (.str "1") = false ∧
    valueEq c3Insts (.instV 0) (.instV 1) =
      (({ cls := c3Class, fields := [("x", .num 1)] } : Inst).cls.name ==
       ({ cls := c3Class, fields := [("x", .num 2)] } : Inst).cls.name) :=
  ⟨(c3_equality.1 [] (.num 1) (.str "1")).1,
   c3_equality.2.1 [] (.num 1) (.str "1") (by decide),
   c3_equality.2.2.2.2.2.2.2.2.2 c3Insts 0 1 _ _ rfl rfl⟩

/-! ## Claim C4: print rendering -/

/-- C4 counterexample: the NativeFunction Display impl writes the fixed
string <native fn>, not <fn name>; printing the clock native therefore
renders <native fn> rather than <fn clock>. -/
theorem c4_native_render_counterexample :
    render (fun _ => "") [] (.nativeFn "clock" 0) = "<native fn>" ∧
    "<native fn>" ≠ "<fn clock>" := by
  exact ⟨rfl, by decide⟩

/-- C4 (amended): the print statement appends exactly one value to the
output (one println line); its rendering is the number under the host
default float formatter (abstracted as fmt), true or false for Bool, nil
for Nil, the raw unquoted string for String, the class name followed by a
space and the word instance for Instance, <fn name> for Function, the
class name for Class, and the fixed string <native fn> for NativeFunction
(not <fn name>). -/
theorem c4_print_rendering :
    (∀ fuel st e st1 v, evalExpr fuel st e = (st1, .ok v) →
       evalStmt (fuel+1) st (.print e) =
         ({ st1 with output := st1.output ++ [v] }, .ok ())) ∧
    (∀ fmt insts n, render fmt insts (.num n) = fmt n) ∧
    (∀ fmt insts b, render fmt insts (.bool b) = if b then "true" else "false") ∧
    (∀ fmt insts, render fmt insts .nil = "nil") ∧
    (∀ fmt insts s, render fmt insts (.str s) = s) ∧
    (∀ fmt insts id inst, insts[id]? = some inst →
       render fmt insts (.instV id) = inst.cls.name ++ " instance") ∧
    (∀ fmt insts f, render fmt insts (.fn f) = "<fn " ++ f.name ++ ">") ∧
    (∀ fmt insts c, render fmt insts (.classV c) = c.name) ∧
    (∀ fmt insts name a, render fmt insts (.nativeFn name a) = "<native fn>") := by
  refine ⟨?_, ?_, ?_, ?_, ?_, ?_, ?_, ?_, ?_⟩
  · intro fuel st e st1 v h
    simp only [evalStmt, h, bindRes_ok]
  · intro fmt insts n; rfl
  · intro fmt insts b; rfl
  · intro fmt insts; rfl
  · intro fmt insts s; rfl
  · intro fmt insts id inst h; simp only [render, h]
  · intro fmt insts f; rfl
  · intro fmt insts c; rfl
  · intro fmt insts name a; rfl

/-- C4 witness: the amended theorem at concrete inputs. -/
theorem c4_print_rendering_witness :
    evalStmt 11 initSt (.print (.lit (.str "hi"))) =
      ({ initSt with output := initSt.output ++ [.str "hi"] }, .ok ()) ∧
    render (fun _ => "") c3Insts (.instV 0) =
      (c3Insts[0]?.getD ({ cls := c3Class, fields := [] } : Inst)).cls.name ++ " instance" :=
  ⟨c4_print_rendering.1 10 initSt (.lit (.str "hi")) initSt (.str "hi") rfl,
   c4_print_rendering.2.2.2.2.2.1 (fun _ => "") c3Insts 0 _ rfl⟩

/-! ## Claim C9: short-circuiting logical operators -/

/-- C9: logical or and logical and are short-circuiting: the left operand
is evaluated first; or yields the left value at once when it is truthy and
otherwise becomes exactly the evaluation of the right operand; and yields
the left value at once when it is falsy and otherwise becomes exactly the
evaluation of the right operand.  The result is always the deciding
operand value itself, never a coerced boolean, and only Nil and boolean
false are falsy. -/
theorem c9_logical_short_circuit :
    (∀ fuel st l r st1 v, evalExpr fuel st l = (st1, .ok v) → isTrue v = true →
       evalExpr (fuel+1) st (.logicalOr l r) = (st1, .ok v)) ∧
    (∀ fuel st l r st1 v, evalExpr fuel st l = (st1, .ok v) → isTrue v = false →
       evalExpr (fuel+1) st (.logicalOr l r) = evalExpr fuel st1 r) ∧
    (∀ fuel st l r st1 v, evalExpr fuel st l = (st1, .ok v) → isTrue v = false →
       evalExpr (fuel+1) st (.logicalAnd l r) = (st1, .ok v)) ∧
    (∀ fuel st l r st1 v, evalExpr fuel st l = (st1, .ok v) → isTrue v = true →
       evalExpr (fuel+1) st (.logicalAnd l r) = evalExpr fuel st1 r) ∧
    (∀ v, isTrue v = false ↔ (v = .nil ∨ v = .bool false)) := by
  refine ⟨?_, ?_, ?_, ?_, ?_⟩
  · intro fuel st l r st1 v h hv
    simp only [evalExpr, h, bindRes_ok, hv, if_true]
  · intro fuel st l r st1 v h hv
    simp only [evalExpr, h, bindRes_ok, hv, Bool.false_eq_true, if_false]
  · intro fuel st l r st1 v h hv
    simp only [evalExpr, h, bindRes_ok, hv, Bool.false_eq_true, if_false]
  · intro fuel st l r st1 v h hv
    simp only [evalExpr, h, bindRes_ok, hv, if_true]
  · intro v
    cases v <;> simp [isTrue]

/-- C9 witness: the theorem at concrete inputs: a truthy left operand is
returned as is by or; a falsy left operand makes or become the right
evaluation; nil is falsy. -/
theorem c9_logical_short_circuit_witness :
    evalExpr 6 initSt (.logicalOr (.lit (.bool true)) (.lit .nil)) = (initSt, .ok (.bool true)) ∧
    evalExpr 6 initSt (.logicalOr (.lit .nil) (.lit (.num 7))) = evalExpr 5 initSt (.lit (.num 7)) ∧
    evalExpr 6 initSt (.logicalAnd (.lit .nil) (.lit (.num 7))) = (initSt, .ok .nil) ∧
    isTrue .nil = false :=
  ⟨c9_logical_short_circuit.1 5 initSt _ _ initSt (.bool true) rfl rfl,
   c9_logical_short_circuit.2.1 5 initSt _ _ initSt .nil rfl rfl,
   c9_logical_short_circuit.2.2.1 5 initSt _ _ initSt .nil rfl rfl,
   (c9_logical_short_circuit.2.2.2.2 .nil).mpr (Or.inl rfl)⟩

/-! ## Claims C7 and C10: the call protocol and its error ordering -/

/-- C7: in a call, a callee value that is not a Function, NativeFunction or
Class raises NotValidCallable; otherwise an argument count differing from
the callee's arity raises InvalidArgumentCount reporting expected equal to
the arity and actual equal to the argument count; otherwise the argument
expressions are evaluated left to right in the caller's current frame
before invocation, as the order program shows: both argument assignments
to the global x have happened, in left-to-right order, by the time the
body's print observes x. -/
theorem c7_call_protocol :
    (∀ fuel st callee args st1 c, evalExpr fuel st callee = (st1, .ok c) →
       isCallable c = false →
       evalExpr (fuel+1) st (.call callee args) = (st1, .error .notValidCallable)) ∧
    (∀ fuel st callee args st1 c, evalExpr fuel st callee = (st1, .ok c) →
       isCallable c = true → args.length ≠ arityOf c →
       (evalExpr (fuel+1) st (.call callee args)).2 =
         .error (.invalidArgumentCount (arityOf c) args.length)) ∧
    (runProgram 30 c7OrderProg).map (fun p => (p.1, p.2.1.output, p.2.2)) =
      some (false, [.str "ab"], .ok ()) := by
  refine ⟨?_, ?_, ?_⟩
  · intro fuel st callee args st1 c h hc
    simp only [evalExpr, h, bindRes_ok, hc, Bool.false_eq_true, if_false]
  · intro fuel st callee args st1 c h hc hn
    simp only [evalExpr, h, bindRes_ok, hc, if_true, if_neg hn]
  · rfl

/-- C7 witness: the protocol theorem at concrete inputs: calling the number
7 raises NotValidCallable, and calling a two-parameter function with one
argument raises InvalidArgumentCount with expected 2 and actual 1. -/
theorem c7_call_protocol_witness :
    evalExpr 6 initSt (.call (.lit (.num 7)) []) = (initSt, .error .notValidCallable) ∧
    (evalExpr 6 c7St (.call (.varE "f" none) [.lit .nil])).2 =
      .error (.invalidArgumentCount 2 1) :=
  ⟨c7_call_protocol.1 5 initSt _ [] initSt (.num 7) rfl rfl,
   c7_call_protocol.2.1 5 c7St _ [.lit .nil] c7St
     (.fn { name := "f", params := ["a", "b"], body := [], closure := 0, isInit := false })
     rfl rfl (by decide)⟩

/-- C10: when the argument count differs from the callee's arity, the
InvalidArgumentCount error is raised before any argument expression is
evaluated: the final state is exactly the state after evaluating the
callee, the result does not depend on which argument expressions were
passed (only on how many), and in the concrete program the argument's
assignment of 99 never happens: the run ends in the arity error with the
global x still 1. -/
theorem c10_arity_error_before_args :
    (∀ fuel st callee args args1 st1 c, evalExpr fuel st callee = (st1, .ok c) →
       isCallable c = true → args.length ≠ arityOf c → args1.length = args.length →
       evalExpr (fuel+1) st (.call callee args) =
         (st1, .error (.invalidArgumentCount (arityOf c) args.length)) ∧
       evalExpr (fuel+1) st (.call callee args1) =
         evalExpr (fuel+1) st (.call callee args)) ∧
    (runProgram 30 c10Prog).map (fun p => (p.1, p.2.2, envGet p.2.1.envs 0 "x")) =
      some (false, .error (.invalidArgumentCount 2 1), some (.num 1)) := by
  constructor
  · intro fuel st callee args args1 st1 c h hc hn hlen
    have h1 : evalExpr (fuel+1) st (.call callee args) =
        (st1, .error (.invalidArgumentCount (arityOf c) args.length)) := by
      simp only [evalExpr, h, bindRes_ok, hc, if_true, if_neg hn]
    have hn1 : args1.length ≠ arityOf c := by rw [hlen]; exact hn
    have h2 : evalExpr (fuel+1) st (.call callee args1) =
        (st1, .error (.invalidArgumentCount (arityOf c) args1.length)) := by
      simp only [evalExpr, h, bindRes_ok, hc, if_true, if_neg hn1]
    exact ⟨h1, by rw [h1, h2, hlen]⟩
  · rfl

/-- C10 witness: the theorem at concrete inputs: with a two-parameter
callee and one argument, the result is the arity error in the post-callee
state, independent of the argument expression. -/
theorem c10_arity_error_before_args_witness :
    evalExpr 6 c7St (.call (.varE "f" none) [.assign "x" none (.lit (.num 5))]) =
      (c7St, .error (.invalidArgumentCount 2 1)) :=
  ((c10_arity_error_before_args.1 5 c7St (.varE "f" none)
      [.assign "x" none (.lit (.num 5))] [.lit .nil] c7St
      (.fn { name := "f", params := ["a", "b"], body := [], closure := 0, isInit := false })
      rfl rfl (by decide) rfl).1)

/-! ## Claim C1: the function-call boundary -/

/-- The freshly bound this: binding a method to an instance and reading
this back out of the bound function's own closure frame yields exactly
that instance. -/
theorem readThis_bindFunc (st : St) (f : Func) (instId : Nat) :
    readThis (bindFunc st f instId).1 (bindFunc st f instId).2 = .instV instId := by
  have h1 : (st.envs ++ [({ values := [], enclosing := some f.closure } : Frame)])[st.envs.length]? =
      some { values := [], enclosing := some f.closure } :=
    List.getElem?_concat_length _ _
  simp only [bindFunc, readThis, envGetAt, frameDefine, h1]
  rw [List.getElem?_set_eq_of_lt]
  · simp [alGet]
  · simp

/-- C1: at the call boundary of a user function, a Return signal raised in
the body is caught and supplies the result (the carried value, Nil when
none) when the function is not an initializer, and a body that completes
without returning yields Nil; when the function is an initializer, the
call result is always the bound this read back out of the function's own
closure (readThis reads this at distance 0 in the closure frame),
overriding whatever the body returned; and binding establishes that this
read yields the bound instance. -/
theorem c1_call_boundary :
    (∀ fuel st f args st1, runBody fuel st f args = (st1, .ok ()) → f.isInit = true →
       callFunction (fuel+1) st f args = (st1, .ok (readThis st1 f))) ∧
    (∀ fuel st f args st1 v, runBody fuel st f args = (st1, .error (.ret v)) → f.isInit = true →
       callFunction (fuel+1) st f args = (st1, .ok (readThis st1 f))) ∧
    (∀ fuel st f args st1 v, runBody fuel st f args = (st1, .error (.ret v)) → f.isInit = false →
       callFunction (fuel+1) st f args = (st1, .ok (v.getD .nil))) ∧
    (∀ fuel st f args st1, runBody fuel st f args = (st1, .ok ()) → f.isInit = false →
       callFunction (fuel+1) st f args = (st1, .ok .nil)) ∧
    (∀ st f instId, readThis (bindFunc st f instId).1 (bindFunc st f instId).2 = .instV instId) := by
  refine ⟨?_, ?_, ?_, ?_, readThis_bindFunc⟩
  · intro fuel st f args st1 h hi
    simp only [callFunction, h, hi, if_true]
  · intro fuel st f args st1 v h hi
    simp only [callFunction, h, hi, if_true]
  · intro fuel st f args st1 v h hi
    simp only [callFunction, h, hi, Bool.false_eq_true, if_false]
  · intro fuel st f args st1 h hi
    simp only [callFunction, h, hi, Bool.false_eq_true, if_false]

/-- C1 witness: the boundary theorem at concrete inputs: an initializer
whose body raises a bare return nevertheless yields the bound this, and
the freshly bound this of a bound method is the instance. -/
theorem c1_call_boundary_witness :
    callFunction 11 c1St c1Func [] =
      ((runBody 10 c1St c1Func []).1, .ok (readThis (runBody 10 c1St c1Func []).1 c1Func)) ∧
    readThis (bindFunc initSt c1Func 0).1 (bindFunc initSt c1Func 0).2 = .instV 0 :=
  ⟨c1_call_boundary.2.1 10 c1St c1Func [] (runBody 10 c1St c1Func []).1 (some .nil) rfl rfl,
   c1_call_boundary.2.2.2.2 initSt c1Func 0⟩

/-! ## Claim C2: calling a class -/

/-- Method lookup succeeds exactly when some class in the ancestor chain
has the method in its own table. -/
theorem findMethod_isSome_iff_ancestors :
    ∀ (c : LoxClass) (name : String),
      (c.findMethod name).isSome =
        (ancestors c).any (fun a => (alGet a.methods name).isSome)
  | .mk n m (some sc), name => by
    have ha : ancestors (.mk n m (some sc)) = .mk n m (some sc) :: ancestors sc := by
      simp [ancestors]
    cases h : alGet m name with
    | some f =>
      have hf : LoxClass.findMethod (.mk n m (some sc)) name = some f := by
        simp [LoxClass.findMethod, h]
      rw [hf, ha, List.any_cons]
      simp [LoxClass.methods, h]
    | none =>
      have hf : LoxClass.findMethod (.mk n m (some sc)) name = sc.findMethod name := by
        simp [LoxClass.findMethod, h]
      rw [hf, ha, List.any_cons, findMethod_isSome_iff_ancestors sc name]
      simp [LoxClass.methods, h]
  | .mk n m none, name => by
    have ha : ancestors (.mk n m none) = [.mk n m none] := by
      simp [ancestors]
    cases h : alGet m name with
    | some f =>
      have hf : LoxClass.findMethod (.mk n m none) name = some f := by
        simp [LoxClass.findMethod, h]
      rw [hf, ha]
      simp [LoxClass.methods, h]
    | none =>
      have hf : LoxClass.findMethod (.mk n m none) name = none := by
        simp [LoxClass.findMethod, h]
      rw [hf, ha]
      simp [LoxClass.methods, h]

/-- C2: calling a class constructs a fresh instance of it; when no init
method exists anywhere in the ancestor chain (findMethod searches the
chain, by the any-ancestor characterization) the instance is returned
directly with no call; when an init method exists it is bound to the new
instance and invoked with the call's arguments, and the call result is the
constructed instance regardless of the value the initializer call
produced, while initializer errors propagate.  The concrete program
class C with an early-returning init, then print C(), prints exactly
C instance. -/
theorem c2_class_call :
    (∀ fuel st (cls : LoxClass) args, cls.findMethod "init" = none →
       classInit (fuel+1) st cls args =
         ({ st with insts := st.insts ++ [{ cls := cls, fields := [] }] },
          .ok (.instV st.insts.length))) ∧
    (∀ fuel st (cls : LoxClass) args m st1 w, cls.findMethod "init" = some m →
       (let stI := { st with insts := st.insts ++ [({ cls := cls, fields := [] } : Inst)] }
        callFunction fuel (bindFunc stI m st.insts.length).1
          (bindFunc stI m st.insts.length).2 args = (st1, .ok w)) →
       classInit (fuel+1) st cls args = (st1, .ok (.instV st.insts.length))) ∧
    (∀ fuel st (cls : LoxClass) args m st1 e, cls.findMethod "init" = some m →
       (let stI := { st with insts := st.insts ++ [({ cls := cls, fields := [] } : Inst)] }
        callFunction fuel (bindFunc stI m st.insts.length).1
          (bindFunc stI m st.insts.length).2 args = (st1, .error e)) →
       classInit (fuel+1) st cls args = (st1, .error e)) ∧
    (∀ (c : LoxClass) name, (c.findMethod name).isSome =
       (ancestors c).any (fun a => (alGet a.methods name).isSome)) ∧
    (runProgram 30 c2Prog).map
        (fun p => (p.1, p.2.2, p.2.1.output.map (render (fun _ => "") p.2.1.insts))) =
      some (false, .ok (), ["C instance"]) := by
  refine ⟨?_, ?_, ?_, findMethod_isSome_iff_ancestors, rfl⟩
  · intro fuel st cls args h
    simp only [classInit, h]
  · intro fuel st cls args m st1 w h hcall
    simp only [classInit, h, hcall, bindRes_ok]
  · intro fuel st cls args m st1 e h hcall
    simp only [classInit, h, hcall, bindRes_err]

/-- C2 witness: the class-call theorem at concrete inputs: a class with no
init at all, and the class whose init raises a bare return, both yield the
fresh instance. -/
theorem c2_class_call_witness :
    classInit 11 initSt (.mk "D" [] none) [] =
      ({ initSt with insts := initSt.insts ++ [{ cls := .mk "D" [] none, fields := [] }] },
       .ok (.instV 0)) ∧
    classInit 11 initSt c2Cls [] =
      ((callFunction 10
          (bindFunc { initSt with insts := initSt.insts ++ [({ cls := c2Cls, fields := [] } : Inst)] }
            { name := "init", params := [], body := [.returnS none], closure := 0, isInit := true }
            0).1
          (bindFunc { initSt with insts := initSt.insts ++ [({ cls := c2Cls, fields := [] } : Inst)] }
            { name := "init", params := [], body := [.returnS none], closure := 0, isInit := true }
            0).2 []).1,
       .ok (.instV 0)) :=
  ⟨c2_class_call.1 10 initSt (.mk "D" [] none) [] rfl,
   c2_class_call.2.1 10 initSt c2Cls []
     { name := "init", params := [], body := [.returnS none], closure := 0, isInit := true }
     _ (.instV 0) rfl rfl⟩

/-! ## Claim C5: name resolution distances -/

theorem annotateHeight_some_spec :
    ∀ (scopes : List (List (String × Bool))) (name : String) (n : Nat),
      annotateHeight scopes name = some n →
      (∃ s, scopes[n]? = some s ∧ (alGet s name).isSome = true) ∧
      (∀ k, k < n → ∀ s, scopes[k]? = some s → (alGet s name).isSome = false) := by
  intro scopes
  induction scopes with
  | nil => intro name n h; simp [annotateHeight] at h
  | cons s rest ih =>
    intro name n h
    simp only [annotateHeight, List.findIdx?_cons] at h
    by_cases hp : (alGet s name).isSome = true
    · simp only [hp, if_true] at h
      cases h
      exact ⟨⟨s, by simp, hp⟩, fun k hk => by omega⟩
    · simp only [hp, Bool.false_eq_true, if_false, List.findIdx?_start_succ] at h
      rw [Option.map_eq_some'] at h
      obtain ⟨m, hm, rfl⟩ := h
      obtain ⟨⟨s1, hs1, hs1p⟩, hmin⟩ := ih name m hm
      refine ⟨⟨s1, by simpa using hs1, hs1p⟩, ?_⟩
      intro k hk t ht
      cases k with
      | zero =>
        simp only [List.getElem?_cons_zero] at ht
        cases ht
        simpa using hp
      | succ k =>
        simp only [List.getElem?_cons_succ] at ht
        exact hmin k (by omega) t ht

theorem annotateHeight_none_iff (scopes : List (List (String × Bool))) (name : String) :
    annotateHeight scopes name = none ↔ ∀ s ∈ scopes, (alGet s name).isSome = false := by
  simp only [annotateHeight]
  exact List.findIdx?_eq_none_iff

theorem lookupVar_none_global (st : St) (name : String) (f : Frame)
    (hg : st.envs[st.globals]? = some f) (he : f.enclosing = none) :
    lookupVar st name none = alGet f.values name := by
  simp only [lookupVar, envGet, envGetF, hg, he]
  cases alGet f.values name <;> rfl

/-- C5: the resolver's annotate scans the scope stack innermost to
outermost (the stack is innermost-first here) and records the 0-based
index of the first scope containing the name, so a name whose nearest
declaration sits N scopes outward is recorded at distance N and every
nearer scope lacks the name; when no scope contains the name the slot is
left empty, and at run time an empty slot resolves by name directly
against the global frame (whose chain is itself alone), while a filled
slot resolves by distance-indexed lookup from the current frame.  On the
concrete program of a block declaring a and an inner block printing a, the
resolver records distance 1 for the inner read. -/
theorem c5_resolution :
    (∀ scopes (name : String) n, annotateHeight scopes name = some n →
       (∃ s, scopes[n]? = some s ∧ (alGet s name).isSome = true) ∧
       (∀ k, k < n → ∀ s, scopes[k]? = some s → (alGet s name).isSome = false)) ∧
    (∀ scopes (name : String), annotateHeight scopes name = none ↔
       ∀ s ∈ scopes, (alGet s name).isSome = false) ∧
    (∀ st (name : String) h, lookupVar st name (some h) = envGetAt st.envs st.curEnv name h) ∧
    (∀ st (name : String) f, st.envs[st.globals]? = some f → f.enclosing = none →
       lookupVar st name none = alGet f.values name) ∧
    (resolveProgram 20 c5Prog).map (fun p => (p.1.hasErr, p.2)) =
      some (false, [.block [.varDecl "a" (some (.lit (.num 1))),
                            .block [.print (.varE "a" (some 1))]]]) := by
  refine ⟨annotateHeight_some_spec, annotateHeight_none_iff, ?_, lookupVar_none_global, rfl⟩
  intro st name h
  rfl

/-- C5 witness: the resolution theorem at concrete inputs: on the stack
with an empty innermost scope and an outer scope declaring a, annotate
records distance 1, and the 1-distance characterization holds there. -/
theorem c5_resolution_witness :
    (annotateHeight [[], [("a", true)]] "a" = some 1 → True) ∧
    ((∃ s, ([[], [("a", true)]] : List (List (String × Bool)))[1]? = some s ∧
        (alGet s "a").isSome = true) ∧
     (∀ k, k < 1 → ∀ s, ([[], [("a", true)]] : List (List (String × Bool)))[k]? = some s →
        (alGet s "a").isSome = false)) ∧
    (annotateHeight [[], [("b", true)]] "a" = none) :=
  ⟨fun _ => trivial,
   c5_resolution.1 [[], [("a", true)]] "a" 1 rfl,
   (c5_resolution.2.1 [[], [("b", true)]] "a").mpr (by decide)⟩

/-! ## Claim C8: environment assignment -/

theorem envAssignF_fuel_irrel (envs : List Frame) (name : String) (v : Value)
    (hwf : EnvWF envs) :
    ∀ i fuel1 fuel2, i < fuel1 → i < fuel2 →
      envAssignF envs name v i fuel1 = envAssignF envs name v i fuel2 := by
  intro i
  induction i using Nat.strong_induction_on with
  | _ i ih =>
    intro fuel1 fuel2 h1 h2
    match fuel1, fuel2 with
    | f1+1, f2+1 =>
      cases he : envs[i]? with
      | none => simp only [envAssignF, he]
      | some f =>
        cases hv : alGet f.values name with
        | some w => simp only [envAssignF, he, hv]
        | none =>
          cases hj : f.enclosing with
          | none => simp only [envAssignF, he, hv, hj]
          | some j =>
            have hji : j < i := hwf i f j he hj
            simp only [envAssignF, he, hv, hj]
            exact ih j hji f1 f2 (by omega) (by omega)

theorem envAssignAt_length (envs : List Frame) (name : String) (v : Value) :
    ∀ h i, (envAssignAt envs i name v h).length = envs.length := by
  intro h
  induction h with
  | zero =>
    intro i
    simp only [envAssignAt]
    cases envs[i]? <;> simp
  | succ h ih =>
    intro i
    simp only [envAssignAt]
    cases (envs[i]?).bind (fun (f : Frame) => f.enclosing) with
    | none => rfl
    | some j => exact ih j

/-- C8: assign walks outward from the current frame to the first frame
owning the name and mutates that binding in place (an owner in the current
frame is rewritten there at once; a non-owning frame defers to its
enclosing frame; a non-owning frame with no enclosing frame yields
UndefinedVariable); assign_at at distance 0 mutates the frame itself, at
distance h+1 follows exactly one enclosing link, silently doing nothing
when the link is missing, and in every case returns a store of unchanged
shape and no error. -/
theorem c8_env_assignment :
    (∀ envs i (name : String) v f w, envs[i]? = some f → alGet f.values name = some w →
       envAssign envs i name v = .ok (envs.set i { f with values := alPut f.values name v })) ∧
    (∀ envs i (name : String) v f j, EnvWF envs → envs[i]? = some f →
       alGet f.values name = none → f.enclosing = some j →
       envAssign envs i name v = envAssign envs j name v) ∧
    (∀ envs i (name : String) v f, envs[i]? = some f → alGet f.values name = none →
       f.enclosing = none →
       envAssign envs i name v = .error (.undefinedVariable name)) ∧
    (∀ envs i (name : String) v f, envs[i]? = some f →
       envAssignAt envs i name v 0 = envs.set i { f with values := alPut f.values name v }) ∧
    (∀ envs i (name : String) v h j, (envs[i]?).bind (fun (f : Frame) => f.enclosing) = some j →
       envAssignAt envs i name v (h+1) = envAssignAt envs j name v h) ∧
    (∀ envs i (name : String) v h, (envs[i]?).bind (fun (f : Frame) => f.enclosing) = none →
       envAssignAt envs i name v (h+1) = envs) ∧
    (∀ envs i (name : String) v h, (envAssignAt envs i name v h).length = envs.length) := by
  refine ⟨?_, ?_, ?_, ?_, ?_, ?_, ?_⟩
  · intro envs i name v f w hf hw
    simp only [envAssign, envAssignF, hf, hw]
  · intro envs i name v f j hwf hf hw hj
    have h1 : envAssign envs i name v = envAssignF envs name v j i := by
      simp only [envAssign, envAssignF, hf, hw, hj]
    rw [h1, envAssign]
    exact envAssignF_fuel_irrel envs name v hwf j i (j+1)
      (hwf i f j hf hj) (Nat.lt_succ_self j)
  · intro envs i name v f hf hw hj
    simp only [envAssign, envAssignF, hf, hw, hj]
  · intro envs i name v f hf
    simp only [envAssignAt, hf]
  · intro envs i name v h j hj
    simp only [envAssignAt, hj]
  · intro envs i name v h hj
    simp only [envAssignAt, hj]
  · intro envs i name v h
    exact envAssignAt_length envs name v h i

/-- C8 witness: the assignment theorem at concrete inputs: a two-frame
chain where the outer frame owns x: assigning x from the inner frame
defers to the outer frame and rewrites it there; assigning a name nobody
owns errors; assign_at with a too-large distance is a silent no-op of
unchanged shape. -/
theorem c8_env_assignment_witness :
    envAssign [{ values := [("x", .num 1)], enclosing := none },
               { values := [], enclosing := some 0 }] 1 "x" (.num 5) =
      envAssign [{ values := [("x", .num 1)], enclosing := none },
                 { values := [], enclosing := some 0 }] 0 "x" (.num 5) ∧
    envAssign [{ values := [("x", .num 1)], enclosing := none },
               { values := [], enclosing := some 0 }] 0 "x" (.num 5) =
      .ok ([{ values := [("x", .num 1)], enclosing := none },
            { values := [], enclosing := some 0 }].set 0
        { values := alPut [("x", .num 1)] "x" (.num 5), enclosing := none }) ∧
    envAssign [{ values := [], enclosing := none }] 0 "y" (.num 5) =
      .error (.undefinedVariable "y") ∧
    envAssignAt [{ values := [], enclosing := none }] 0 "y" (.num 5) 3 =
      [{ values := [], enclosing := none }] := by
  refine ⟨?_, ?_, ?_, ?_⟩
  · exact c8_env_assignment.2.1 _ 1 "x" (.num 5) { values := [], enclosing := some 0 } 0
      (by intro i f j hf hj
          match i, hf with
          | 0, hf => cases hf; cases hj
          | 1, hf => cases hf; cases hj; omega)
      rfl rfl rfl
  · exact c8_env_assignment.1 _ 0 "x" (.num 5) { values := [("x", .num 1)], enclosing := none }
      (.num 1) rfl rfl
  · exact c8_env_assignment.2.2.1 _ 0 "y" (.num 5) { values := [], enclosing := none }
      rfl rfl rfl
  · exact c8_env_assignment.2.2.2.2.2.1 _ 0 "y" (.num 5) 2 rfl

/-! ## Claim C6: the current-environment pointer is never leaked -/

theorem bindRes_curEnv {α β : Type} {r : St × Except RErr α} {k : St → α → St × Except RErr β}
    {c : Nat} (hr : r.1.curEnv = c) (hk : ∀ st a, (k st a).1.curEnv = st.curEnv) :
    (bindRes r k).1.curEnv = c := by
  obtain ⟨st, x⟩ := r
  cases x with
  | ok a => exact (hk st a).trans hr
  | error e => exact hr

theorem bindFunc_curEnv (st : St) (f : Func) (i : Nat) :
    (bindFunc st f i).1.curEnv = st.curEnv := rfl

theorem setField_curEnv (st : St) (i : Nat) (name : String) (v : Value) :
    (setField st i name v).curEnv = st.curEnv := by
  simp only [setField]
  split <;> rfl

theorem instanceGet_curEnv (st : St) (i : Nat) (name : String) :
    (instanceGet st i name).1.curEnv = st.curEnv := by
  simp only [instanceGet]
  split
  · rfl
  · split
    · rfl
    · split
      · rfl
      · rfl

theorem evalSuper_curEnv (st : St) (m : String) (h : Option Nat) :
    (evalSuper st m h).1.curEnv = st.curEnv := by
  simp only [evalSuper]
  split
  · split
    · rfl
    · rfl
    · split
      · split
        · rfl
        · rfl
      · rfl
  · rfl

theorem finishClassAssign_curEnv (st : St) (name : String) (cls : LoxClass) :
    (finishClassAssign st name cls).1.curEnv = st.curEnv := by
  simp only [finishClassAssign]
  split <;> rfl

theorem pushFrame_getElem (envs : List Frame) (encl : Nat) (name : String) (v : Value) :
    (frameDefine (envs ++ [({ values := [], enclosing := some encl } : Frame)])
        envs.length name v)[envs.length]? =
      some { values := alPut [] name v, enclosing := some encl } := by
  have h1 : (envs ++ [({ values := [], enclosing := some encl } : Frame)])[envs.length]? =
      some { values := [], enclosing := some encl } := List.getElem?_concat_length _ _
  simp only [frameDefine, h1]
  rw [List.getElem?_set_eq_of_lt]
  simp

theorem classDeclCont_curEnv (st : St) (name : String) (sc : Option LoxClass)
    (ms : List FunctionDecl) :
    (classDeclCont st name sc ms).1.curEnv = st.curEnv := by
  cases sc with
  | none => exact finishClassAssign_curEnv _ _ _
  | some c =>
    simp only [classDeclCont]
    rw [pushFrame_getElem]
    simp only [Option.some_bind]
    exact finishClassAssign_curEnv _ _ _

/-- The master preservation lemma: every evaluation function returns a
state whose current-environment pointer equals the one it was given, for
every outcome (ok, runtime error, Return signal, panic model, fuel out). -/
theorem curEnvAll : ∀ fuel : Nat,
    (∀ st e, (evalExpr fuel st e).1.curEnv = st.curEnv) ∧
    (∀ st o, (evalOpt fuel st o).1.curEnv = st.curEnv) ∧
    (∀ st args, (evalArgs fuel st args).1.curEnv = st.curEnv) ∧
    (∀ st s, (evalStmt fuel st s).1.curEnv = st.curEnv) ∧
    (∀ st n se ms, (evalClassDecl fuel st n se ms).1.curEnv = st.curEnv) ∧
    (∀ st stmts, (evalStmts fuel st stmts).1.curEnv = st.curEnv) ∧
    (∀ st stmts envId, (evalBlock fuel st stmts envId).1.curEnv = st.curEnv) ∧
    (∀ st f args, (runBody fuel st f args).1.curEnv = st.curEnv) ∧
    (∀ st f args, (callFunction fuel st f args).1.curEnv = st.curEnv) ∧
    (∀ st cls args, (classInit fuel st cls args).1.curEnv = st.curEnv) := by
  intro fuel
  induction fuel with
  | zero =>
    exact ⟨fun _ _ => rfl, fun _ _ => rfl, fun _ _ => rfl, fun _ _ => rfl,
           fun _ _ _ _ => rfl, fun _ _ => rfl, fun _ _ _ => rfl,
           fun _ _ _ => rfl, fun _ _ _ => rfl, fun _ _ _ => rfl⟩
  | succ fuel ih =>
    obtain ⟨ihE, ihO, ihA, ihS, ihC, ihSS, ihB, ihR, ihF, ihI⟩ := ih
    have hExpr : ∀ st e, (evalExpr (fuel+1) st e).1.curEnv = st.curEnv := by
      intro st e
      cases e with
      | lit l => rfl
      | grouping e =>
        simp only [evalExpr]
        exact ihE st e
      | unary op e =>
        simp only [evalExpr]
        exact bindRes_curEnv (ihE st e) (fun _ _ => rfl)
      | binary l op r =>
        simp only [evalExpr]
        exact bindRes_curEnv (ihE st l)
          (fun st1 _ => bindRes_curEnv (ihE st1 r) (fun _ _ => rfl))
      | varE name height =>
        simp only [evalExpr]
        split <;> rfl
      | this height =>
        simp only [evalExpr]
        split <;> rfl
      | assign name height value =>
        simp only [evalExpr]
        refine bindRes_curEnv (ihE st value) ?_
        intro st1 v
        cases height with
        | some h => rfl
        | none => cases envAssign st1.envs st1.globals name v <;> rfl
      | logicalOr l r =>
        simp only [evalExpr]
        refine bindRes_curEnv (ihE st l) ?_
        intro st1 v
        split
        · rfl
        · exact ihE st1 r
      | logicalAnd l r =>
        simp only [evalExpr]
        refine bindRes_curEnv (ihE st l) ?_
        intro st1 v
        split
        · exact ihE st1 r
        · rfl
      | call callee args =>
        simp only [evalExpr]
        refine bindRes_curEnv (ihE st callee) ?_
        intro st1 c
        split
        · split
          · refine bindRes_curEnv (ihA st1 args) ?_
            intro st2 vs
            cases c with
            | fn f => exact ihF st2 f vs
            | nativeFn n a => rfl
            | classV cls => exact ihI st2 cls vs
            | num n => rfl
            | str s => rfl
            | bool b => rfl
            | nil => rfl
            | instV i => rfl
          · rfl
        · rfl
      | get obj name =>
        simp only [evalExpr]
        refine bindRes_curEnv (ihE st obj) ?_
        intro st1 v
        cases v with
        | instV id => exact instanceGet_curEnv st1 id name
        | num n => rfl
        | str s => rfl
        | bool b => rfl
        | nil => rfl
        | fn f => rfl
        | nativeFn n a => rfl
        | classV c => rfl
      | set obj name value =>
        simp only [evalExpr]
        refine bindRes_curEnv (ihE st obj) ?_
        intro st1 ov
        cases ov with
        | instV id =>
          refine bindRes_curEnv (ihE st1 value) ?_
          intro st2 v
          exact setField_curEnv st2 id name v
        | num n => rfl
        | str s => rfl
        | bool b => rfl
        | nil => rfl
        | fn f => rfl
        | nativeFn n a => rfl
        | classV c => rfl
      | superE m h =>
        simp only [evalExpr]
        exact evalSuper_curEnv st m h
    have hOpt : ∀ st o, (evalOpt (fuel+1) st o).1.curEnv = st.curEnv := by
      intro st o
      cases o with
      | some e =>
        simp only [evalOpt]
        exact ihE st e
      | none => rfl
    have hArgs : ∀ st args, (evalArgs (fuel+1) st args).1.curEnv = st.curEnv := by
      intro st args
      cases args with
      | nil => rfl
      | cons e rest =>
        simp only [evalArgs]
        exact bindRes_curEnv (ihE st e)
          (fun st1 _ => bindRes_curEnv (ihA st1 rest) (fun _ _ => rfl))
    have hClassDecl : ∀ st n se ms, (evalClassDecl (fuel+1) st n se ms).1.curEnv = st.curEnv := by
      intro st n se ms
      cases se with
      | none =>
        simp only [evalClassDecl]
        exact classDeclCont_curEnv st n none ms
      | some e =>
        cases e with
        | varE sname sheight =>
          simp only [evalClassDecl]
          refine bindRes_curEnv (ihE st (.varE sname sheight)) ?_
          intro st1 sv
          cases sv with
          | classV sc => exact classDeclCont_curEnv st1 n (some sc) ms
          | num a => rfl
          | str a => rfl
          | bool a => rfl
          | nil => rfl
          | fn a => rfl
          | nativeFn a b => rfl
          | instV a => rfl
        | lit l => rfl
        | grouping a => rfl
        | unary a b => rfl
        | binary a b c => rfl
        | assign a b c => rfl
        | logicalOr a b => rfl
        | logicalAnd a b => rfl
        | call a b => rfl
        | get a b => rfl
        | set a b c => rfl
        | this a => rfl
        | superE a b => rfl
    have hStmt : ∀ st s, (evalStmt (fuel+1) st s).1.curEnv = st.curEnv := by
      intro st s
      cases s with
      | varDecl name initializer =>
        simp only [evalStmt]
        exact bindRes_curEnv (ihO st initializer) (fun _ _ => rfl)
      | print e =>
        simp only [evalStmt]
        exact bindRes_curEnv (ihE st e) (fun _ _ => rfl)
      | exprStmt e =>
        simp only [evalStmt]
        exact bindRes_curEnv (ihE st e) (fun _ _ => rfl)
      | block stmts =>
        simp only [evalStmt]
        exact ihB _ stmts _
      | ifS c t e =>
        simp only [evalStmt]
        refine bindRes_curEnv (ihE st c) ?_
        intro st1 v
        split
        · exact ihS st1 t
        · cases e with
          | some el => exact ihS st1 el
          | none => rfl
      | whileS c b =>
        simp only [evalStmt]
        refine bindRes_curEnv (ihE st c) ?_
        intro st1 v
        split
        · exact bindRes_curEnv (ihS st1 b) (fun st2 _ => ihS st2 (.whileS c b))
        · rfl
      | funDecl d => rfl
      | returnS value =>
        simp only [evalStmt]
        exact bindRes_curEnv (ihO st value) (fun _ _ => rfl)
      | classDecl n se ms =>
        simp only [evalStmt]
        exact ihC st n se ms
    have hStmts : ∀ st stmts, (evalStmts (fuel+1) st stmts).1.curEnv = st.curEnv := by
      intro st stmts
      cases stmts with
      | nil => rfl
      | cons s rest =>
        simp only [evalStmts]
        exact bindRes_curEnv (ihS st s) (fun st1 _ => ihSS st1 rest)
    have hBlock : ∀ st stmts envId, (evalBlock (fuel+1) st stmts envId).1.curEnv = st.curEnv := by
      intro st stmts envId
      rfl
    have hRun : ∀ st f args, (runBody (fuel+1) st f args).1.curEnv = st.curEnv := by
      intro st f args
      simp only [runBody]
      split
      · rfl
      · exact ihB _ _ _
    have hCall : ∀ st f args, (callFunction (fuel+1) st f args).1.curEnv = st.curEnv := by
      intro st f args
      have h := ihR st f args
      rcases hrb : runBody fuel st f args with ⟨st1, r⟩
      rw [hrb] at h
      cases r with
      | ok u =>
        cases u
        simp only [callFunction, hrb]
        split <;> exact h
      | error e =>
        cases e with
        | ret v => simp only [callFunction, hrb]; split <;> exact h
        | incompatibleOperandType m => simp only [callFunction, hrb]; exact h
        | undefinedVariable n => simp only [callFunction, hrb]; exact h
        | notValidCallable => simp only [callFunction, hrb]; exact h
        | invalidArgumentCount a b => simp only [callFunction, hrb]; exact h
        | notAnInstance => simp only [callFunction, hrb]; exact h
        | undefinedProperty n => simp only [callFunction, hrb]; exact h
        | superclassMustBeAClass => simp only [callFunction, hrb]; exact h
        | panicked m => simp only [callFunction, hrb]; exact h
        | fuelOut => simp only [callFunction, hrb]; exact h
    have hInit : ∀ st cls args, (classInit (fuel+1) st cls args).1.curEnv = st.curEnv := by
      intro st cls args
      simp only [classInit]
      cases hm : cls.findMethod "init" with
      | none => rfl
      | some m =>
        exact bindRes_curEnv (ihF _ _ args) (fun _ _ => rfl)
    exact ⟨hExpr, hOpt, hArgs, hStmt, hClassDecl, hStmts, hBlock, hRun, hCall, hInit⟩

/-- C6: no scope is ever leaked: block execution creates a child frame on
entry and restores the prior current-environment pointer on every exit
path, and consequently executing any statement (and any expression) leaves
the evaluator's current-environment pointer exactly as it was, whether the
outcome is normal completion, a runtime error, or a non-local Return
signal. -/
theorem c6_env_restored :
    (∀ fuel st s, (evalStmt fuel st s).1.curEnv = st.curEnv) ∧
    (∀ fuel st e, (evalExpr fuel st e).1.curEnv = st.curEnv) ∧
    (∀ fuel st stmts envId, (evalBlock fuel st stmts envId).1.curEnv = st.curEnv) :=
  ⟨fun fuel => (curEnvAll fuel).2.2.2.1,
   fun fuel => (curEnvAll fuel).1,
   fun fuel => (curEnvAll fuel).2.2.2.2.2.2.1⟩

end RustyLox

